import Mathlib

/-!
Verification of the Redis token backend (keystone/token/backends/redis.py).

Shallow embedding conventions:
* Python `datetime` values are modelled by their integer Unix timestamps
  (`Int`), so `calendar.timegm`/`_to_timestamp` is the identity and
  `expires - current_time` is integer subtraction (seconds).
* Python values stored in token payloads are modelled by `PyVal`; a Python
  dict is an insertion-ordered association sequence (`dnil`/`dcons`), which
  matches CPython semantics for `d[k] = v` (replace in place, append new
  keys at the end), `d.get(k)` and `d.setdefault(k, v)`.
* `pickle.dumps` produces a `Pickled` byte-string; a byte string is either
  the faithful encoding of a value (`Pickled.val v`) or arbitrary bytes
  that do not unpickle (`Pickled.malformed b`).  `pickle.loads` inverts
  `val` and raises on `malformed`.
* The Redis server state is a table of string keys (each with an absolute
  expiry instant, from SETEX) and a table of sorted sets.  SETEX with ttl
  `t` at wall-clock `now` stores absolute expiry `now + t`; a string key is
  visible iff the current time is strictly below its absolute expiry.
  Per the spec (§4.6) the reference behavior accepts non-positive TTLs and
  lets the record evict on the next read (the redis client library itself
  is not part of the analysed sources).
* Python dict objects passed into `create_token` are heap objects
  (`St.heap`, an address-indexed table); `copy.deepcopy` allocates a fresh
  address holding the same contents.  Only top-level keys of the copied
  dict are ever mutated by the driver, so values inside heap objects are
  modelled as immutable trees.
* `self._client.bgsave()` only triggers persistence on the Redis side and
  has no observable effect on the modelled state.
-/

/-- A Python value as stored in token payloads: strings, ints
(standing in for datetimes via their timestamps), None, and
insertion-ordered dicts (`dnil` = `\x7b\x7d`, `dcons k v rest`). -/
inductive PyVal where
  | str (s : String)
  | int (n : Int)
  | pyNone
  | dnil
  | dcons (key : String) (value : PyVal) (rest : PyVal)
deriving DecidableEq, Repr

/-- A pickled byte string: either the encoding of a value or malformed
bytes that `pickle.loads` rejects. -/
inductive Pickled where
  | val (v : PyVal)
  | malformed (bytes : String)
deriving DecidableEq, Repr

/-- Errors surfaced by the driver.  Constructors mirror the Python
exception actually raised at each raise site (`keystone.exception.
TokenNotFound`, `token.provider.UnsupportedTokenVersionException`,
built-in `KeyError`/`TypeError`/`AttributeError`, and
`pickle.UnpicklingError`).  `danglingRef` is a model artifact for a heap
address with no object, which cannot arise from Python. -/
inductive Err where
  | tokenNotFound (token_id : String)
  | unsupportedTokenVersion (msg : String)
  | keyError (key : String)
  | typeError
  | attributeError
  | unpicklingError
  | danglingRef
deriving DecidableEq, Repr

/-- Modelled from the spec: the error taxonomy of §7 classifies "an
unsupported/unknown schema version ... in trust-payload extraction" as
`UnexpectedError`; the class `UnsupportedTokenVersionException` itself is
declared in keystone/token/provider.py, which is outside the analysed
sources. -/
def isUnexpectedError : Err → Bool
  | .unsupportedTokenVersion _ => true
  | _ => false

/-- Python truthiness of a value (`if not x`). -/
def pyTruthy : PyVal → Bool
  | .str s => s ≠ ""
  | .int n => n ≠ 0
  | .pyNone => false
  | .dnil => false
  | .dcons _ _ _ => true

/-- Truthiness of a `d.get(k)` result (absent key gives `None`, falsy). -/
def optTruthy : Option PyVal → Bool
  | none => false
  | some v => pyTruthy v

/-- Is the value a Python dict? -/
def PyVal.isDict : PyVal → Bool
  | .dnil => true
  | .dcons _ _ _ => true
  | _ => false

/-- Key lookup inside a dict value (first matching key). -/
def dget : PyVal → String → Option PyVal
  | .dcons k v rest, key => if k = key then some v else dget rest key
  | _, _ => none

/-- CPython `d[k] = v`: replace in place if the key exists, otherwise
append the new key at the end. -/
def dset : PyVal → String → PyVal → PyVal
  | .dnil, key, v => .dcons key v .dnil
  | .dcons k w rest, key, v =>
      if k = key then .dcons k v rest else .dcons k w (dset rest key v)
  | other, _, _ => other

/-- `d[k]` as an expression: `KeyError` on a missing key, `TypeError`
when subscripting a non-dict with a string key. -/
def pySub (v : PyVal) (key : String) : Except Err PyVal :=
  if v.isDict then
    match dget v key with
    | some w => .ok w
    | none => .error (.keyError key)
  else .error .typeError

/-- `d.get(k)`: `AttributeError` when the receiver is not a dict. -/
def pyGet (v : PyVal) (key : String) : Except Err (Option PyVal) :=
  if v.isDict then .ok (dget v key) else .error .attributeError

/-- Python `"%s" % v` for the values the driver interpolates into keys
and messages.  The repr of dicts is abstracted (never relied upon). -/
def pyStr : PyVal → String
  | .str s => s
  | .int n => toString n
  | .pyNone => "None"
  | _ => "<dict>"

/-- `"%s" % x` where `x` is a `d.get(k)` result (`None` when absent). -/
def pyStrOpt : Option PyVal → String
  | none => "None"
  | some v => pyStr v

/-- `pickle.dumps(v, pickle.HIGHEST_PROTOCOL)`. -/
def dumps (v : PyVal) : Pickled := .val v

/-- `pickle.loads`: inverts `dumps`, raises `UnpicklingError` on bytes
that are not a well-formed encoding. -/
def loads : Pickled → Except Err PyVal
  | .val v => .ok v
  | .malformed _ => .error .unpicklingError

/-- Configuration slice the driver consults (`CONF.trust.enabled` and the
token-expiration policy feeding `token.default_expire_time()`). -/
structure Cfg where
  trustEnabled : Bool
  tokenExpiration : Int
deriving DecidableEq, Repr

/-- Modelled from the spec: `token.default_expire_time()` (declared in
keystone/token/__init__.py, outside the analysed sources) supplies the
"provider-supplied default" expiry used when `data` has no `expires`
(§4.6): the current time plus the configured expiration window. -/
def default_expire_time (cfg : Cfg) (now : Int) : Int :=
  now + cfg.tokenExpiration

/-- `token.provider.V2` (declared outside the analysed sources; any two
distinct version tags work for the driver's equality tests). -/
def V2 : String := "v2.0"

/-- `token.provider.V3`. -/
def V3 : String := "v3.0"

/-- The modelled world: the Python heap of dict objects handed to
`create_token` (address-indexed) plus the Redis database (string keys
with absolute expiry instants, and sorted sets of pickled members with
integer scores). -/
structure St where
  heap : List (Nat × PyVal)
  next : Nat
  strings : List (String × Pickled × Int)
  zsets : List (String × List (Pickled × Int))
deriving DecidableEq, Repr

/-- Look up a heap object by address. -/
def heapGet (st : St) (a : Nat) : Option PyVal :=
  st.heap.lookup a

/-- Overwrite a heap object (newest binding shadows older ones). -/
def heapSet (st : St) (a : Nat) (v : PyVal) : St :=
  { st with heap := (a, v) :: st.heap }

/-- The dict object at an address (the driver only dereferences live
addresses). -/
def heapObj (st : St) (a : Nat) : PyVal :=
  (heapGet st a).getD .dnil

/-- `d.setdefault(k, v)` on a heap object: return the existing value if
the key is present, otherwise store the default and return it. -/
def setdefault (st : St) (a : Nat) (key : String) (v : PyVal) : St × PyVal :=
  match dget (heapObj st a) key with
  | some w => (st, w)
  | none => (heapSet st a (dset (heapObj st a) key v), v)

/-- `self._get_key(type_, key)`: `"keystone:%s:%s" % (type_, key)`. -/
def getKey (type_ : String) (key : String) : String :=
  "keystone:" ++ type_ ++ ":" ++ key

/-- `Token._revocation_list`. -/
def revocationList : String := "keystone:token:revoked"

/-- Find the live string record under a key: the stored bytes are visible
iff the current time is strictly before the absolute expiry set by SETEX
(Redis treats an expired key as absent). -/
def liveGet (strings : List (String × Pickled × Int)) (key : String) (now : Int) :
    Option Pickled :=
  match strings.find? (fun kv => kv.1 = key) with
  | some (_, p, exp) => if now < exp then some p else none
  | none => none

/-- `self._set(key, value, ttl)`: SETEX of the pickled value with
relative ttl, i.e. absolute expiry `now + ttl`. -/
def rSetex (st : St) (key : String) (p : Pickled) (ttl : Int) (now : Int) : St :=
  { st with strings := (key, p, now + ttl) :: st.strings.filter (fun kv => kv.1 ≠ key) }

/-- `self._client.delete(key)` (idempotent). -/
def rDelete (st : St) (key : String) : St :=
  { st with strings := st.strings.filter (fun kv => kv.1 ≠ key) }

/-- `self._get(key)`: fetch and unpickle, `None` when absent or expired. -/
def rGet (st : St) (key : String) (now : Int) : Except Err (Option PyVal) :=
  match liveGet st.strings key now with
  | none => .ok none
  | some p =>
    match loads p with
    | .ok v => .ok (some v)
    | .error e => .error e

/-- The sorted-set value under a key (empty when the key is absent). -/
def zsetOf (st : St) (key : String) : List (Pickled × Int) :=
  (st.zsets.lookup key).getD []

/-- Replace the sorted-set value under a key. -/
def setZset (st : St) (key : String) (zs : List (Pickled × Int)) : St :=
  { st with zsets := (key, zs) :: st.zsets }

/-- `self._zadd(key, score, value)`: ZADD of the pickled member; an
existing member has its score updated, a new member is inserted. -/
def rZadd (st : St) (key : String) (member : Pickled) (score : Int) : St :=
  setZset st key ((zsetOf st key).filter (fun ms => ms.1 ≠ member) ++ [(member, score)])

/-- `Token._remove_expired(key)`: `ZREMRANGEBYSCORE key 0 current_time` —
note the lower bound is the literal `0`, not `-inf`: exactly the members
with score in `[0, now]` are removed. -/
def remove_expired (st : St) (key : String) (now : Int) : St :=
  setZset st key
    ((zsetOf st key).filter (fun ms => ¬ (0 ≤ ms.2 ∧ ms.2 ≤ now)))

/-- Stable sort of a sorted set's members by ascending score (Redis keeps
its sets score-ordered; the tie order is immaterial to the driver). -/
def insertByScore (x : Pickled × Int) : List (Pickled × Int) → List (Pickled × Int)
  | [] => [x]
  | y :: ys => if x.2 < y.2 then x :: y :: ys else y :: insertByScore x ys

/-- Sort a member list by ascending score. -/
def sortByScore : List (Pickled × Int) → List (Pickled × Int)
  | [] => []
  | x :: xs => insertByScore x (sortByScore xs)

/-- `ZRANGE key start stop`: members in score order, with Redis index
semantics (negative indices count from the end, out-of-range clamped). -/
def zrangeRaw (st : St) (key : String) (start stop : Int) : List Pickled :=
  let sorted := sortByScore (zsetOf st key)
  let n : Int := sorted.length
  let s := max (if start < 0 then n + start else start) 0
  let e := min (if stop < 0 then n + stop else stop) (n - 1)
  if s > e then []
  else ((sorted.drop s.toNat).take (e - s + 1).toNat).map Prod.fst

/-- `map(pickle.loads, ret)` in Python 2 is eager: every member is
unpickled, and the first malformed member raises. -/
def mapLoads : List Pickled → Except Err (List PyVal)
  | [] => .ok []
  | p :: ps =>
    match loads p with
    | .error e => .error e
    | .ok v =>
      match mapLoads ps with
      | .error e => .error e
      | .ok vs => .ok (v :: vs)

/-- `Token._zrange(key, start, end)`: range read plus unpickling. -/
def zrangeVals (st : St) (key : String) (start stop : Int) : Except Err (List PyVal) :=
  mapLoads (zrangeRaw st key start stop)

/-- `Token.get_token(token_id)`: empty id raises `TokenNotFound('')`;
a missing, expired or falsy record raises `TokenNotFound(token_id)`. -/
def get_token (st : St) (token_id : String) (now : Int) : Except Err PyVal :=
  if token_id = "" then .error (.tokenNotFound "")
  else
    match rGet st (getKey "token" token_id) now with
    | .error e => .error e
    | .ok none => .error (.tokenNotFound token_id)
    | .ok (some v) =>
      if pyTruthy v then .ok v else .error (.tokenNotFound token_id)

/-- The trust block of `Token.create_token` (`if CONF.trust.enabled and
data.get('trust_id'): ...`): extracts the trustee user id according to
the token schema version and registers the extra index entry; an unknown
version raises `UnsupportedTokenVersionException`.  `obj` is the (fully
initialised) copied data dict, `data` its address, `st5` the state after
the primary write and the owner index entry. -/
def trustStep (cfg : Cfg) (obj : PyVal) (token_id : String) (exp : Int) (data : Nat)
    (st5 : St) : Except Err Nat × St :=
  if cfg.trustEnabled && optTruthy (dget obj "trust_id") then
    match pySub obj "token_data" with
    | .error e => (.error e, st5)
    | .ok token_data =>
      match pySub obj "token_version" with
      | .error e => (.error e, st5)
      | .ok tv =>
        if tv = .str V2 then
          match pySub token_data "access" >>= (fun a => pySub a "trust") >>=
                (fun t => pySub t "trustee_user_id") with
          | .error e => (.error e, st5)
          | .ok trustee =>
            (.ok data, rZadd st5 (getKey "user" (pyStr trustee))
                         (dumps (.str token_id)) exp)
        else if tv = .str V3 then
          match pySub token_data "OS-TRUST:trust" >>=
                (fun t => pySub t "trustee_user_id") with
          | .error e => (.error e, st5)
          | .ok trustee =>
            (.ok data, rZadd st5 (getKey "user" (pyStr trustee))
                         (dumps (.str token_id)) exp)
        else
          (.error (.unsupportedTokenVersion
             ("Unknown token version " ++ pyStrOpt (dget obj "token_version"))), st5)
  else (.ok data, st5)

/-- The user-id defaulting step of `Token.create_token`
(`if not data.get('user_id'): data['user_id'] = data['user']['id']`),
acting on the copied dict at address `data`. -/
def userIdStep (st2 : St) (data : Nat) : Except Err St :=
  if optTruthy (dget (heapObj st2 data) "user_id") then .ok st2
  else
    match pySub (heapObj st2 data) "user" with
    | .error e => .error e
    | .ok u =>
      match pySub u "id" with
      | .error e => .error e
      | .ok uid => .ok (heapSet st2 data (dset (heapObj st2 data) "user_id" uid))

/-- `Token.create_token(token_id, data)`.  The caller's dict is passed by
reference (`dataRef`); the state is threaded through and returned also on
a raised exception, so partial writes stay visible.  On success the
returned address is the internal deep copy (the object Python returns). -/
def create_token (cfg : Cfg) (now : Int) (st : St) (token_id : String) (dataRef : Nat) :
    Except Err Nat × St :=
  match heapGet st dataRef with
  | none => (.error .danglingRef, st)
  | some callerObj =>
    -- data = copy.deepcopy(data)
    let data := st.next
    let st1 : St := { st with heap := (data, callerObj) :: st.heap, next := st.next + 1 }
    -- expires = data.setdefault('expires', token.default_expire_time())
    let sd := setdefault st1 data "expires" (.int (default_expire_time cfg now))
    let st2 := sd.1
    let expires := sd.2
    -- current_time = timeutils.normalize_time(timeutils.utcnow())  [= now]
    -- if not data.get('user_id'): data['user_id'] = data['user']['id']
    match userIdStep st2 data with
    | .error e => (.error e, st2)
    | .ok st3 =>
      match expires with
      | .int exp =>
        -- self._set(self._get_key('token', token_id), data, expires - current_time)
        let st4 := rSetex st3 (getKey "token" token_id)
                     (dumps (heapObj st3 data)) (exp - now) now
        -- self._zadd(self._get_key('user', data.get('user_id')),
        --            _to_timestamp(expires), token_id)
        let st5 := rZadd st4 (getKey "user" (pyStrOpt (dget (heapObj st3 data) "user_id")))
                     (dumps (.str token_id)) exp
        -- if CONF.trust.enabled and data.get('trust_id'): ...
        trustStep cfg (heapObj st3 data) token_id exp data st5
      | _ => (.error .typeError, st3)  -- expires - current_time on a non-datetime

/-- `Token.delete_token(token_id)`: fetch (raising `TokenNotFound` when
absent), delete the primary key, ZADD the full data dict into the
revocation list scored by the original expiry, then `bgsave` (persistence
only, no modelled effect). -/
def delete_token (now : Int) (st : St) (token_id : String) : Except Err Unit × St :=
  match get_token st token_id now with
  | .error e => (.error e, st)
  | .ok data =>
    let st1 := rDelete st (getKey "token" token_id)
    match pySub data "expires" with
    | .error e => (.error e, st1)
    | .ok (.int exp) => (.ok (), rZadd st1 revocationList (dumps data) exp)
    | .ok _ => (.error .typeError, st1)  -- _to_timestamp on a non-datetime

/-- Truthiness of an optional-string keyword argument (`if tenant_id:`
with default `None`). -/
def strFilter : Option String → Bool
  | none => false
  | some s => s ≠ ""

/-- The tenant filter step: `if tenant_id and token_data.get('tenant_id')
!= tenant_id: continue` (result `false` means the candidate is skipped). -/
def tenantKeep (tenant_id : Option String) (token_data : PyVal) : Except Err Bool :=
  if strFilter tenant_id then
    match pyGet token_data "tenant_id" with
    | .error e => .error e
    | .ok v => .ok (v = tenant_id.map PyVal.str)
  else .ok true

/-- The trust filter step, mirroring `tenantKeep` on `trust_id`. -/
def trustKeep (trust_id : Option String) (token_data : PyVal) : Except Err Bool :=
  if strFilter trust_id then
    match pyGet token_data "trust_id" with
    | .error e => .error e
    | .ok v => .ok (v = trust_id.map PyVal.str)
  else .ok true

/-- The body of the consumer filter's `try` block:
`token_data['token_data']['token']['OS-OAUTH1'].get('consumer_id')`
compared against the supplied consumer id. -/
def consumerProbe (token_data : PyVal) (c : String) : Except Err Bool :=
  pySub token_data "token_data" >>= (fun a => pySub a "token") >>=
    (fun b => pySub b "OS-OAUTH1") >>=
    (fun oauth =>
      match pyGet oauth "consumer_id" with
      | .error e => .error e
      | .ok cid => .ok (cid = some (.str c)))

/-- The consumer filter step: a `KeyError` anywhere in the nested lookup
is caught and skips the candidate; other exceptions propagate. -/
def consumerKeep (consumer_id : Option String) (token_data : PyVal) : Except Err Bool :=
  if strFilter consumer_id then
    match consumer_id with
    | none => .ok true
    | some c =>
      match consumerProbe token_data c with
      | .ok keep => .ok keep
      | .error (.keyError _) => .ok false
      | .error e => .error e
  else .ok true

/-- One iteration of the `list_tokens` loop over a candidate id: fetch
the primary record (a miss or falsy record skips), then apply the three
optional filters in order.  `.ok true` means the id is appended. -/
def processCandidate (st : St) (now : Int)
    (tenant_id trust_id consumer_id : Option String) (token_id : PyVal) :
    Except Err Bool :=
  match rGet st (getKey "token" (pyStr token_id)) now with
  | .error e => .error e
  | .ok none => .ok false
  | .ok (some token_data) =>
    if pyTruthy token_data then
      match tenantKeep tenant_id token_data with
      | .error e => .error e
      | .ok false => .ok false
      | .ok true =>
        match trustKeep trust_id token_data with
        | .error e => .error e
        | .ok false => .ok false
        | .ok true => consumerKeep consumer_id token_data
    else .ok false

/-- The `list_tokens` accumulation loop (appending kept ids in order). -/
def listLoop (st : St) (now : Int) (tenant_id trust_id consumer_id : Option String) :
    List PyVal → Except Err (List PyVal)
  | [] => .ok []
  | tid :: rest =>
    match processCandidate st now tenant_id trust_id consumer_id tid with
    | .error e => .error e
    | .ok false => listLoop st now tenant_id trust_id consumer_id rest
    | .ok true =>
      match listLoop st now tenant_id trust_id consumer_id rest with
      | .error e => .error e
      | .ok res => .ok (tid :: res)

/-- `Token.list_tokens(user_id, tenant_id=None, trust_id=None,
consumer_id=None)`: lazy prune of the user's index, full-range read, then
the per-candidate fetch-and-filter loop. -/
def list_tokens (now : Int) (st : St) (user_id : String)
    (tenant_id trust_id consumer_id : Option String) :
    Except Err (List PyVal) × St :=
  let skey := getKey "user" user_id
  let st1 := remove_expired st skey now
  match zrangeVals st1 skey 0 (-1) with
  | .error e => (.error e, st1)
  | .ok user_tokens =>
    (listLoop st1 now tenant_id trust_id consumer_id user_tokens, st1)

/-- `Token.list_revoked_tokens()`: lazy prune of the revocation list,
then a full-range read. -/
def list_revoked_tokens (now : Int) (st : St) : Except Err (List PyVal) × St :=
  let st1 := remove_expired st revocationList now
  (zrangeVals st1 revocationList 0 (-1), st1)

/-- Decidable equality of driver results, used to evaluate concrete runs. -/
instance exceptDecEq {ε α : Type} [DecidableEq ε] [DecidableEq α] :
    DecidableEq (Except ε α) := fun a b =>
  match a, b with
  | .ok x, .ok y =>
    if h : x = y then isTrue (by rw [h])
    else isFalse (by intro hc; injection hc; contradiction)
  | .error x, .error y =>
    if h : x = y then isTrue (by rw [h])
    else isFalse (by intro hc; injection hc; contradiction)
  | .ok _, .error _ => isFalse (by intro hc; cases hc)
  | .error _, .ok _ => isFalse (by intro hc; cases hc)

/-! Concrete fixtures used by witnesses and counterexamples. -/

/-- A configuration with trust support disabled. -/
def cfgW : Cfg := { trustEnabled := false, tokenExpiration := 3600 }

/-- A configuration with trust support enabled. -/
def cfgTW : Cfg := { trustEnabled := true, tokenExpiration := 3600 }

/-- A caller token payload: expiry 10, owner `u`. -/
def objW : PyVal := .dcons "expires" (.int 10) (.dcons "user_id" (.str "u") .dnil)

/-- Fresh world holding only the caller's payload dict at address 0. -/
def stW : St := { heap := [(0, objW)], next := 1, strings := [], zsets := [] }

/-- World after creating token `t1` from `objW` at time 0. -/
def stW1 : St := (create_token cfgW 0 stW "t1" 0).2

/-- World after additionally deleting `t1` at time 5. -/
def stW2 : St := (delete_token 5 stW1 "t1").2

/-- A raw world whose user index holds an entry with a negative score. -/
def stNegW : St :=
  { heap := [], next := 0, strings := [],
    zsets := [(getKey "user" "u", [(.val (.str "t"), -5)])] }

/-- A raw world whose user index holds a malformed (unpicklable) member. -/
def stMalW : St :=
  { heap := [], next := 0, strings := [],
    zsets := [(getKey "user" "u", [(.malformed "junk", 5)])] }

/-- A trust-carrying V2 payload with trustee `tu`. -/
def objTV : PyVal :=
  .dcons "expires" (.int 10) (.dcons "user_id" (.str "u") (.dcons "trust_id" (.str "tr")
    (.dcons "token_version" (.str "v2.0") (.dcons "token_data"
      (.dcons "access" (.dcons "trust" (.dcons "trustee_user_id" (.str "tu") .dnil) .dnil)
        .dnil) .dnil))))

/-- World holding the trust payload at address 0. -/
def stTV : St := { heap := [(0, objTV)], next := 1, strings := [], zsets := [] }

/-- A trust-carrying payload with an unknown token version. -/
def objBV : PyVal :=
  .dcons "expires" (.int 10) (.dcons "user_id" (.str "u") (.dcons "trust_id" (.str "tr")
    (.dcons "token_version" (.str "weird") (.dcons "token_data" .dnil .dnil))))

/-- World holding the unknown-version payload at address 0. -/
def stBV : St := { heap := [(0, objBV)], next := 1, strings := [], zsets := [] }

/-- Stored record carrying tenant and trust fields but no OAuth data. -/
def tdA : PyVal := .dcons "tenant_id" (.str "A") (.dcons "trust_id" (.str "T") .dnil)

/-- Stored record carrying the nested OAuth consumer id `C`. -/
def tdO : PyVal :=
  .dcons "token_data" (.dcons "token" (.dcons "OS-OAUTH1"
    (.dcons "consumer_id" (.str "C") .dnil) .dnil) .dnil) .dnil

/-- World with two live tokens `x` (record `tdA`) and `y` (record `tdO`)
indexed for user `u`. -/
def stF : St :=
  { heap := [], next := 0,
    strings := [(getKey "token" "x", .val tdA, 1000), (getKey "token" "y", .val tdO, 1000)],
    zsets := [(getKey "user" "u", [(.val (.str "x"), 500), (.val (.str "y"), 600)])] }

/-! Helper lemmas about the embedding's primitives. -/

theorem lookup_cons_self {α : Type} {β : Type} [BEq α] [LawfulBEq α]
    (a : α) (b : β) (l : List (α × β)) :
    List.lookup a ((a, b) :: l) = some b := by
  simp [List.lookup]

theorem lookup_cons_ne {α : Type} {β : Type} [BEq α] [LawfulBEq α]
    {a k : α} (b : β) (l : List (α × β)) (h : a ≠ k) :
    List.lookup a ((k, b) :: l) = List.lookup a l := by
  have hb : (a == k) = false := beq_eq_false_iff_ne.mpr h
  simp [List.lookup, hb]

theorem zsetOf_setZset_self (st : St) (k : String) (zs : List (Pickled × Int)) :
    zsetOf (setZset st k zs) k = zs := by
  simp [zsetOf, setZset, lookup_cons_self]

theorem zsetOf_setZset_ne (st : St) (k : String) (zs : List (Pickled × Int))
    {k2 : String} (h : k2 ≠ k) :
    zsetOf (setZset st k zs) k2 = zsetOf st k2 := by
  simp [zsetOf, setZset, lookup_cons_ne _ _ h]

theorem strings_remove_expired (st : St) (k : String) (now : Int) :
    (remove_expired st k now).strings = st.strings := rfl

theorem strings_rZadd (st : St) (k : String) (m : Pickled) (s : Int) :
    (rZadd st k m s).strings = st.strings := rfl

theorem zsets_rDelete (st : St) (k : String) : (rDelete st k).zsets = st.zsets := rfl

theorem zsetOf_rDelete (st : St) (k k2 : String) :
    zsetOf (rDelete st k) k2 = zsetOf st k2 := rfl

theorem heap_rSetex (st : St) (k : String) (p : Pickled) (t now : Int) :
    (rSetex st k p t now).heap = st.heap := rfl

theorem heap_rZadd (st : St) (k : String) (m : Pickled) (s : Int) :
    (rZadd st k m s).heap = st.heap := rfl

theorem dget_dset_ne (d : PyVal) (k : String) (v : PyVal) {k2 : String} (h : k ≠ k2) :
    dget (dset d k v) k2 = dget d k2 := by
  induction d with
  | dcons key w rest ihw ihr =>
    by_cases hk : key = k
    · subst hk; simp [dset, dget, h]
    · simp [dset, dget, hk, ihr]
  | dnil => simp [dset, dget, h]
  | str s => rfl
  | int n => rfl
  | pyNone => rfl

theorem pyTruthy_of_dget {d : PyVal} {k : String} {v : PyVal} (h : dget d k = some v) :
    pyTruthy d = true := by
  cases d <;> simp_all [dget, pyTruthy]

theorem isDict_of_dget {d : PyVal} {k : String} {v : PyVal} (h : dget d k = some v) :
    d.isDict = true := by
  cases d <;> simp_all [dget, PyVal.isDict]

theorem mem_insertByScore {x y : Pickled × Int} {l : List (Pickled × Int)} :
    y ∈ insertByScore x l ↔ y = x ∨ y ∈ l := by
  induction l with
  | nil => simp [insertByScore]
  | cons z zs ih =>
    simp only [insertByScore]
    split
    · simp
    · simp [ih]; tauto

theorem mem_sortByScore {y : Pickled × Int} {l : List (Pickled × Int)} :
    y ∈ sortByScore l ↔ y ∈ l := by
  induction l with
  | nil => simp [sortByScore]
  | cons z zs ih => simp [sortByScore, mem_insertByScore, ih]

theorem length_insertByScore (x : Pickled × Int) (l : List (Pickled × Int)) :
    (insertByScore x l).length = l.length + 1 := by
  induction l with
  | nil => rfl
  | cons z zs ih => simp only [insertByScore]; split <;> simp [ih]

theorem length_sortByScore (l : List (Pickled × Int)) :
    (sortByScore l).length = l.length := by
  induction l with
  | nil => rfl
  | cons z zs ih => simp [sortByScore, length_insertByScore, ih]

theorem zrangeRaw_full (st : St) (k : String) :
    zrangeRaw st k 0 (-1) = (sortByScore (zsetOf st k)).map Prod.fst := by
  unfold zrangeRaw
  cases h : sortByScore (zsetOf st k) with
  | nil => norm_num
  | cons a as =>
    have h1 : ¬ ((0:Int) < 0) := by norm_num
    have h2 : ((-1:Int) < 0) := by norm_num
    dsimp only
    rw [if_neg h1, if_pos h2]
    have hmax : max (0:Int) 0 = 0 := by norm_num
    have hmin : min (((a :: as).length : Int) + -1) (((a :: as).length : Int) - 1)
        = ((a :: as).length : Int) - 1 := by omega
    rw [hmax, hmin]
    have hc : ¬ ((0:Int) > ((a :: as).length : Int) - 1) := by
      simp only [List.length_cons]; push_cast; omega
    rw [if_neg hc]
    have ht : ((((a :: as).length : Int) - 1 - 0 + 1)).toNat = (a :: as).length := by
      omega
    simp [ht]

theorem mapLoads_all_val {l : List Pickled} (h : ∀ p ∈ l, ∃ v, p = Pickled.val v) :
    ∃ vs, mapLoads l = .ok vs := by
  induction l with
  | nil => exact ⟨[], rfl⟩
  | cons p ps ih =>
    obtain ⟨v, hp⟩ := h p (List.mem_cons_self _ _)
    obtain ⟨vs, hvs⟩ := ih (fun q hq => h q (List.mem_cons_of_mem _ hq))
    subst hp
    exact ⟨v :: vs, by simp [mapLoads, loads, hvs]⟩

theorem mapLoads_mem {l : List Pickled} {vs : List PyVal} (h : mapLoads l = .ok vs)
    (v : PyVal) : v ∈ vs ↔ Pickled.val v ∈ l := by
  induction l generalizing vs with
  | nil =>
    simp only [mapLoads] at h
    injection h with h
    subst h
    simp
  | cons p ps ih =>
    cases p with
    | malformed b => simp [mapLoads, loads] at h
    | val w =>
      simp only [mapLoads, loads] at h
      cases hps : mapLoads ps with
      | error e => rw [hps] at h; cases h
      | ok vs2 =>
        rw [hps] at h
        injection h with h
        subst h
        simp [ih hps]

theorem mapLoads_malformed {l : List Pickled} {b : String} (h : Pickled.malformed b ∈ l) :
    mapLoads l = .error .unpicklingError := by
  induction l with
  | nil => cases h
  | cons p ps ih =>
    rcases List.mem_cons.mp h with hp | hp
    · subst hp; simp [mapLoads, loads]
    · cases p with
      | malformed b2 => simp [mapLoads, loads]
      | val w => simp [mapLoads, loads, ih hp]

theorem rGet_val {st : St} {k : String} {now : Int} {td : PyVal}
    (h : liveGet st.strings k now = some (Pickled.val td)) :
    rGet st k now = .ok (some td) := by
  simp [rGet, h, loads]

theorem rGet_none {st : St} {k : String} {now : Int}
    (h : liveGet st.strings k now = none) :
    rGet st k now = .ok none := by
  simp [rGet, h]

theorem rGet_some_inv {st : St} {k : String} {now : Int} {td : PyVal}
    (h : rGet st k now = .ok (some td)) :
    liveGet st.strings k now = some (Pickled.val td) := by
  unfold rGet at h
  cases hl : liveGet st.strings k now with
  | none => rw [hl] at h; cases h
  | some p =>
    rw [hl] at h
    cases p with
    | malformed b => simp [loads] at h
    | val w =>
      simp only [loads] at h
      injection h with h
      injection h with h
      subst h
      rfl

theorem rGet_congr {st1 st2 : St} (h : st1.strings = st2.strings) (k : String) (now : Int) :
    rGet st1 k now = rGet st2 k now := by
  simp [rGet, h]

theorem find?_filter_ne (l : List (String × Pickled × Int)) (key : String) :
    ((l.filter (fun kv => kv.1 ≠ key)).find? (fun kv => kv.1 = key)) = none := by
  induction l with
  | nil => rfl
  | cons kv rest ih =>
    by_cases hk : kv.1 = key
    · simp [List.filter, hk, ih]
    · simp [List.filter, hk, List.find?, ih]

theorem liveGet_cons_self (key : String) (p : Pickled) (exp : Int)
    (rest : List (String × Pickled × Int)) (now : Int) :
    liveGet ((key, p, exp) :: rest) key now = if now < exp then some p else none := by
  simp [liveGet, List.find?]

theorem liveGet_filter_self (l : List (String × Pickled × Int)) (key : String) (now : Int) :
    liveGet (l.filter (fun kv => kv.1 ≠ key)) key now = none := by
  unfold liveGet
  rw [find?_filter_ne]

theorem listLoop_ok_mem {st : St} {now : Int} {t tr c : Option String}
    {tids res : List PyVal} (h : listLoop st now t tr c tids = .ok res) (v : PyVal) :
    v ∈ res ↔ v ∈ tids ∧ processCandidate st now t tr c v = .ok true := by
  induction tids generalizing res with
  | nil =>
    simp only [listLoop] at h
    injection h with h
    subst h
    simp
  | cons tid rest ih =>
    cases hpc : processCandidate st now t tr c tid with
    | error e => simp [listLoop, hpc] at h
    | ok b =>
      cases b with
      | false =>
        simp only [listLoop, hpc] at h
        rw [ih h]
        constructor
        · rintro ⟨hm, hp⟩; exact ⟨List.mem_cons_of_mem _ hm, hp⟩
        · rintro ⟨hm, hp⟩
          rcases List.mem_cons.mp hm with hv | hv
          · subst hv; rw [hpc] at hp; simp at hp
          · exact ⟨hv, hp⟩
      | true =>
        simp only [listLoop, hpc] at h
        cases hrest : listLoop st now t tr c rest with
        | error e => rw [hrest] at h; cases h
        | ok res2 =>
          rw [hrest] at h
          injection h with h
          subst h
          constructor
          · intro hv
            rcases List.mem_cons.mp hv with hv | hv
            · subst hv; exact ⟨List.mem_cons_self _ _, hpc⟩
            · rcases (ih hrest).1 hv with ⟨hm, hp⟩
              exact ⟨List.mem_cons_of_mem _ hm, hp⟩
          · rintro ⟨hm, hp⟩
            rcases List.mem_cons.mp hm with hv | hv
            · subst hv; exact List.mem_cons_self _ _
            · exact List.mem_cons_of_mem _ ((ih hrest).2 ⟨hv, hp⟩)

theorem processCandidate_true_inv {st : St} {now : Int} {t tr c : Option String} {v : PyVal}
    (h : processCandidate st now t tr c v = .ok true) :
    ∃ td, rGet st (getKey "token" (pyStr v)) now = .ok (some td) ∧ pyTruthy td = true ∧
      tenantKeep t td = .ok true ∧ trustKeep tr td = .ok true ∧
      consumerKeep c td = .ok true := by
  unfold processCandidate at h
  cases hg : rGet st (getKey "token" (pyStr v)) now with
  | error e => simp only [hg] at h; cases h
  | ok o =>
    cases o with
    | none => simp only [hg] at h; simp at h
    | some td =>
      simp only [hg] at h
      by_cases htr : pyTruthy td = true
      · rw [if_pos htr] at h
        cases htk : tenantKeep t td with
        | error e => simp only [htk] at h; cases h
        | ok b1 =>
          cases b1 with
          | false => simp only [htk] at h; simp at h
          | true =>
            simp only [htk] at h
            cases htk2 : trustKeep tr td with
            | error e => simp only [htk2] at h; cases h
            | ok b2 =>
              cases b2 with
              | false => simp only [htk2] at h; simp at h
              | true =>
                simp only [htk2] at h
                exact ⟨td, rfl, htr, htk, htk2, h⟩
      · rw [if_neg htr] at h; simp at h

theorem processCandidate_congr {st1 st2 : St} (h : st1.strings = st2.strings)
    (now : Int) (t tr c : Option String) (v : PyVal) :
    processCandidate st1 now t tr c v = processCandidate st2 now t tr c v := by
  unfold processCandidate
  rw [rGet_congr h]

/-- C2 (amended): on both read paths the lazy prune runs before the
ordered-set range read, and it removes exactly the index entries whose
expiry score lies in the closed interval `[0, now]` — the lower bound of
the `ZREMRANGEBYSCORE` call is the literal `0`, not negative infinity, so
entries with negative scores are untouched. -/
theorem C2_prune_interval :
    (∀ (st : St) (key : String) (now : Int) (m : Pickled) (s : Int),
        (m, s) ∈ zsetOf (remove_expired st key now) key ↔
          (m, s) ∈ zsetOf st key ∧ ¬ (0 ≤ s ∧ s ≤ now)) ∧
    (∀ (now : Int) (st : St) (uid : String) (t tr c : Option String),
        (list_tokens now st uid t tr c).2 = remove_expired st (getKey "user" uid) now) ∧
    (∀ (now : Int) (st : St),
        (list_revoked_tokens now st).2 = remove_expired st revocationList now) ∧
    (∀ (now : Int) (st : St) (uid : String) (t tr c : Option String),
        (list_tokens now st uid t tr c).1 =
          match zrangeVals (remove_expired st (getKey "user" uid) now)
              (getKey "user" uid) 0 (-1) with
          | .error e => .error e
          | .ok tids => listLoop (remove_expired st (getKey "user" uid) now) now t tr c tids) ∧
    (∀ (now : Int) (st : St),
        (list_revoked_tokens now st).1 =
          zrangeVals (remove_expired st revocationList now) revocationList 0 (-1)) := by
  refine ⟨?_, ?_, ?_, ?_, ?_⟩
  · intro st key now m s
    unfold remove_expired
    rw [zsetOf_setZset_self]
    simp [List.mem_filter]
    intro _
    omega
  · intro now st uid t tr c
    unfold list_tokens
    dsimp only
    cases zrangeVals (remove_expired st (getKey "user" uid) now) (getKey "user" uid) 0 (-1)
      <;> rfl
  · intro now st
    rfl
  · intro now st uid t tr c
    unfold list_tokens
    dsimp only
    cases zrangeVals (remove_expired st (getKey "user" uid) now) (getKey "user" uid) 0 (-1)
      <;> rfl
  · intro now st
    rfl

/-- C2 counterexample: in `stNegW` the user index holds an entry with
score −5; at current time 100 that score is ≤ now, yet after the
read-path prune performed by `list_tokens` the entry is still in the
index, because the code prunes `[0, now]`, not `(-inf, now]`. -/
theorem C2_counterexample :
    ((-5 : Int) ≤ 100) ∧
    (Pickled.val (PyVal.str "t"), (-5 : Int)) ∈
      zsetOf (list_tokens 100 stNegW "u" none none none).2 (getKey "user" "u") := by
  constructor
  · decide
  · decide

/-- C6 (amended): on the redis read path a malformed index member is not
recovered to an empty list: `pickle.loads` raises, the error propagates,
and `list_tokens` fails with the unpickling error instead of degrading to
"no tokens". -/
theorem C6_malformed_propagates :
    ∀ (st : St) (now : Int) (uid : String) (t tr c : Option String) (b : String) (s : Int),
      (Pickled.malformed b, s) ∈
          zsetOf (remove_expired st (getKey "user" uid) now) (getKey "user" uid) →
      (list_tokens now st uid t tr c).1 = .error .unpicklingError := by
  intro st now uid t tr c b s hmem
  have hz : Pickled.malformed b ∈
      zrangeRaw (remove_expired st (getKey "user" uid) now) (getKey "user" uid) 0 (-1) := by
    rw [zrangeRaw_full]
    exact List.mem_map_of_mem Prod.fst (mem_sortByScore.mpr hmem)
  have herr : zrangeVals (remove_expired st (getKey "user" uid) now)
      (getKey "user" uid) 0 (-1) = .error .unpicklingError := by
    unfold zrangeVals
    exact mapLoads_malformed hz
  unfold list_tokens
  dsimp only
  rw [herr]

/-- C6 counterexample: `stMalW` has a malformed member in the user index
whose score survives the prune; `list_tokens` then fails with the
unpickling error — it does not return the empty list the claim
requires. -/
theorem C6_counterexample :
    (list_tokens 1 stMalW "u" none none none).1 = .error .unpicklingError ∧
    ¬ (list_tokens 1 stMalW "u" none none none).1 = Except.ok [] := by
  constructor
  · decide
  · decide

/-- Witness for the amended C6 at the concrete corrupted state. -/
theorem C6_witness :
    (Pickled.malformed "junk", (5 : Int)) ∈
        zsetOf (remove_expired stMalW (getKey "user" "u") 1) (getKey "user" "u") ∧
    (list_tokens 1 stMalW "u" none none none).1 = .error .unpicklingError :=
  ⟨by decide, C6_malformed_propagates stMalW 1 "u" none none none "junk" 5 (by decide)⟩

theorem liveGet_mem {l : List (String × Pickled × Int)} {key : String} {now : Int}
    {p : Pickled} (h : liveGet l key now = some p) :
    ∃ k e, (k, p, e) ∈ l := by
  unfold liveGet at h
  cases hf : l.find? (fun kv => kv.1 = key) with
  | none => rw [hf] at h; cases h
  | some kv =>
    obtain ⟨k2, p2, e2⟩ := kv
    simp only [hf] at h
    by_cases hlt : now < e2
    · rw [if_pos hlt] at h
      injection h with h
      subst h
      exact ⟨k2, e2, List.mem_of_find?_eq_some hf⟩
    · rw [if_neg hlt] at h
      cases h

/-- C5: delete is not idempotent at the facade: when the primary record
is absent (including the empty-id case) the call fails with
`TokenNotFound` and the backend state is completely unchanged — no
primary delete, no revocation append; and after one successful delete, a
second delete of the same id fails with `TokenNotFound` and leaves the
post-delete state untouched. -/
theorem C5_delete_not_idempotent :
    (∀ (st : St) (tid : String) (now : Int),
        liveGet st.strings (getKey "token" tid) now = none →
        ∃ s, delete_token now st tid = (.error (.tokenNotFound s), st)) ∧
    (∀ (st st1 : St) (tid : String) (now : Int),
        delete_token now st tid = (.ok (), st1) →
        ∀ now2, delete_token now2 st1 tid = (.error (.tokenNotFound tid), st1)) := by
  constructor
  · intro st tid now h
    by_cases htid : tid = ""
    · subst htid
      exact ⟨"", by simp [delete_token, get_token]⟩
    · exact ⟨tid, by simp [delete_token, get_token, htid, rGet_none h]⟩
  · intro st st1 tid now h now2
    unfold delete_token at h
    cases hg : get_token st tid now with
    | error e => simp only [hg] at h; simp [Prod.ext_iff] at h
    | ok data =>
      have htid : ¬ tid = "" := by
        intro htid
        rw [get_token, if_pos htid] at hg
        cases hg
      simp only [hg] at h
      cases hexp : pySub data "expires" with
      | error e => simp only [hexp] at h; simp [Prod.ext_iff] at h
      | ok v =>
        cases v with
        | int e2 =>
          simp only [hexp] at h
          rw [Prod.mk.injEq] at h
          obtain ⟨-, hst1⟩ := h
          have hnone : liveGet st1.strings (getKey "token" tid) now2 = none := by
            rw [← hst1, strings_rZadd]
            exact liveGet_filter_self st.strings (getKey "token" tid) now2
          simp [delete_token, get_token, htid, rGet_none hnone]
        | str s => simp only [hexp] at h; simp [Prod.ext_iff] at h
        | pyNone => simp only [hexp] at h; simp [Prod.ext_iff] at h
        | dnil => simp only [hexp] at h; simp [Prod.ext_iff] at h
        | dcons k w r => simp only [hexp] at h; simp [Prod.ext_iff] at h

/-- Witness for C5: create `t1`, delete it at time 5, then a second
delete at time 6 fails with `TokenNotFound` and changes nothing. -/
theorem C5_witness :
    delete_token 5 stW1 "t1" = (.ok (), stW2) ∧
    delete_token 6 stW2 "t1" = (.error (.tokenNotFound "t1"), stW2) :=
  ⟨by decide, C5_delete_not_idempotent.2 stW1 stW2 "t1" 5 (by decide) 6⟩

/-- C3: `list_tokens` only returns ids whose primary record is live (and
truthy) at the time of the fetch — a stale index entry whose primary
record is gone is skipped; and with a well-formed store and no filters
the call succeeds (a primary miss is never raised as an error). -/
theorem C3_list_tokens_live :
    (∀ (now : Int) (st : St) (uid : String) (t tr c : Option String)
        (res : List PyVal) (st2 : St),
        list_tokens now st uid t tr c = (.ok res, st2) →
        ∀ v ∈ res, ∃ td, liveGet st.strings (getKey "token" (pyStr v)) now
            = some (Pickled.val td) ∧ pyTruthy td = true) ∧
    (∀ (now : Int) (st : St) (uid : String),
        (∀ kv ∈ st.strings, ∃ w, kv.2.1 = Pickled.val w) →
        (∀ ms ∈ zsetOf st (getKey "user" uid), ∃ w, ms.1 = Pickled.val w) →
        ∃ res st2, list_tokens now st uid none none none = (.ok res, st2)) := by
  constructor
  · intro now st uid t tr c res st2 h v hv
    unfold list_tokens at h
    dsimp only at h
    cases hz : zrangeVals (remove_expired st (getKey "user" uid) now)
        (getKey "user" uid) 0 (-1) with
    | error e => simp only [hz] at h; simp [Prod.ext_iff] at h
    | ok tids =>
      simp only [hz] at h
      rw [Prod.mk.injEq] at h
      obtain ⟨hl, -⟩ := h
      obtain ⟨-, hpc⟩ := (listLoop_ok_mem hl v).1 hv
      obtain ⟨td, hrg, htruthy, -, -, -⟩ := processCandidate_true_inv hpc
      have hlive := rGet_some_inv hrg
      rw [strings_remove_expired] at hlive
      exact ⟨td, hlive, htruthy⟩
  · intro now st uid hwS hwZ
    have hz1 : zsetOf (remove_expired st (getKey "user" uid) now) (getKey "user" uid)
        = (zsetOf st (getKey "user" uid)).filter
            (fun ms => ¬ (0 ≤ ms.2 ∧ ms.2 ≤ now)) := by
      unfold remove_expired
      exact zsetOf_setZset_self _ _ _
    have hsub : ∀ p ∈ zrangeRaw (remove_expired st (getKey "user" uid) now)
        (getKey "user" uid) 0 (-1), ∃ w, p = Pickled.val w := by
      intro p hp
      rw [zrangeRaw_full] at hp
      obtain ⟨ms, hms, hfst⟩ := List.mem_map.mp hp
      have hmem : ms ∈ zsetOf st (getKey "user" uid) := by
        have := mem_sortByScore.mp hms
        rw [hz1] at this
        exact (List.mem_filter.mp this).1
      obtain ⟨w, hw⟩ := hwZ ms hmem
      exact ⟨w, by rw [← hfst, hw]⟩
    obtain ⟨tids, htids⟩ := mapLoads_all_val hsub
    have hloop : ∀ tids2 : List PyVal,
        ∃ res, listLoop (remove_expired st (getKey "user" uid) now) now
            none none none tids2 = .ok res := by
      intro tids2
      induction tids2 with
      | nil => exact ⟨[], rfl⟩
      | cons tid rest ih =>
        obtain ⟨res, hres⟩ := ih
        have hpc : ∃ b, processCandidate (remove_expired st (getKey "user" uid) now)
            now none none none tid = .ok b := by
          unfold processCandidate
          cases hL : liveGet (remove_expired st (getKey "user" uid) now).strings
              (getKey "token" (pyStr tid)) now with
          | none => rw [rGet_none hL]; exact ⟨false, rfl⟩
          | some p =>
            rw [strings_remove_expired] at hL
            obtain ⟨k2, e2, hmem⟩ := liveGet_mem hL
            obtain ⟨w, hw⟩ := hwS (k2, p, e2) hmem
            have hw2 : p = Pickled.val w := hw
            have hL2 : liveGet (remove_expired st (getKey "user" uid) now).strings
                (getKey "token" (pyStr tid)) now = some (Pickled.val w) := by
              rw [strings_remove_expired, hL, hw2]
            simp only [rGet_val hL2]
            by_cases htr : pyTruthy w = true
            · rw [if_pos htr]
              exact ⟨true, by simp [tenantKeep, trustKeep, consumerKeep, strFilter]⟩
            · rw [if_neg htr]
              exact ⟨false, rfl⟩
        obtain ⟨b, hb⟩ := hpc
        cases b with
        | false => exact ⟨res, by simp [listLoop, hb, hres]⟩
        | true => exact ⟨tid :: res, by simp [listLoop, hb, hres]⟩
    obtain ⟨res, hres⟩ := hloop tids
    have htids2 : zrangeVals (remove_expired st (getKey "user" uid) now)
        (getKey "user" uid) 0 (-1) = .ok tids := by
      unfold zrangeVals
      exact htids
    refine ⟨res, remove_expired st (getKey "user" uid) now, ?_⟩
    unfold list_tokens
    dsimp only
    simp only [htids2, hres]

/-- Witness for C3 on the post-create world `stW1`: the only returned id
is `t1` and its primary record is live and truthy at time 5. -/
theorem C3_witness :
    list_tokens 5 stW1 "u" none none none
      = (.ok [PyVal.str "t1"], (list_tokens 5 stW1 "u" none none none).2) ∧
    ∃ td, liveGet stW1.strings (getKey "token" (pyStr (.str "t1"))) 5
        = some (Pickled.val td) ∧ pyTruthy td = true :=
  ⟨by decide,
   C3_list_tokens_live.1 5 stW1 "u" none none none [PyVal.str "t1"]
     ((list_tokens 5 stW1 "u" none none none).2) (by decide) (.str "t1") (by decide)⟩

theorem trustStep_strings (cfg : Cfg) (obj : PyVal) (tid : String) (exp : Int)
    (data : Nat) (st5 : St) :
    (trustStep cfg obj tid exp data st5).2.strings = st5.strings := by
  unfold trustStep
  split
  · split
    · rfl
    · split
      · rfl
      · split
        · split <;> rfl
        · split
          · split <;> rfl
          · rfl
  · rfl

theorem trustStep_heap (cfg : Cfg) (obj : PyVal) (tid : String) (exp : Int)
    (data : Nat) (st5 : St) :
    (trustStep cfg obj tid exp data st5).2.heap = st5.heap := by
  unfold trustStep
  split
  · split
    · rfl
    · split
      · rfl
      · split
        · split <;> rfl
        · split
          · split <;> rfl
          · rfl
  · rfl

theorem trustStep_ok_inv {cfg : Cfg} {obj : PyVal} {tid : String} {exp : Int}
    {data : Nat} {st5 : St} {r : Nat} {st2 : St}
    (h : trustStep cfg obj tid exp data st5 = (.ok r, st2)) : r = data := by
  unfold trustStep at h
  split at h
  · split at h
    · cases h
    · split at h
      · cases h
      · split at h
        · split at h
          · cases h
          · injection h with h1 h2; injection h1 with h1; exact h1.symm
        · split at h
          · split at h
            · cases h
            · injection h with h1 h2; injection h1 with h1; exact h1.symm
          · cases h
  · injection h with h1 h2; injection h1 with h1; exact h1.symm

theorem userIdStep_obj {st2 : St} {data : Nat} {st3 : St}
    (h : userIdStep st2 data = .ok st3) :
    st3 = st2 ∨ ∃ uid, st3 = heapSet st2 data (dset (heapObj st2 data) "user_id" uid) := by
  unfold userIdStep at h
  split at h
  · injection h with h; exact Or.inl h.symm
  · split at h
    · cases h
    · split at h
      · cases h
      · injection h with h; exact Or.inr ⟨_, h.symm⟩

theorem create_token_run {cfg : Cfg} {now : Int} {st : St} {tid : String} {a : Nat}
    {obj : PyVal} {E : Int} {res : Except Err Nat} {st2 : St}
    (hct : create_token cfg now st tid a = (res, st2))
    (ha : heapGet st a = some obj)
    (hE : dget obj "expires" = some (PyVal.int E))
    (r : Nat) (hr : res = .ok r) :
    ∃ d, dget d "expires" = some (PyVal.int E) ∧ pyTruthy d = true ∧
      st2.strings = (getKey "token" tid, dumps d, now + (E - now)) ::
        st.strings.filter (fun kv => kv.1 ≠ getKey "token" tid) := by
  subst hr
  unfold create_token at hct
  simp only [ha] at hct
  have hobj1 : heapObj { st with heap := (st.next, obj) :: st.heap, next := st.next + 1 }
      st.next = obj := by
    simp [heapObj, heapGet, lookup_cons_self]
  have hsd : setdefault { st with heap := (st.next, obj) :: st.heap, next := st.next + 1 }
      st.next "expires" (.int (default_expire_time cfg now))
      = ({ st with heap := (st.next, obj) :: st.heap, next := st.next + 1 }, PyVal.int E) := by
    unfold setdefault
    rw [hobj1, hE]
  simp only [hsd] at hct
  cases hstep : userIdStep { st with heap := (st.next, obj) :: st.heap, next := st.next + 1 }
      st.next with
  | error e =>
    simp only [hstep] at hct
    simp [Prod.ext_iff] at hct
  | ok st3 =>
    simp only [hstep] at hct
    rcases userIdStep_obj hstep with h3 | ⟨uid, h3⟩
    · subst h3
      simp only [hobj1] at hct
      refine ⟨obj, hE, pyTruthy_of_dget hE, ?_⟩
      have h2 := congrArg Prod.snd hct
      dsimp only at h2
      rw [← h2, trustStep_strings]
      rfl
    · rw [hobj1] at h3
      subst h3
      have hobj2 : heapObj
          (heapSet { st with heap := (st.next, obj) :: st.heap, next := st.next + 1 }
            st.next (dset obj "user_id" uid)) st.next = dset obj "user_id" uid := by
        simp [heapObj, heapGet, heapSet, lookup_cons_self]
      simp only [hobj2] at hct
      have hne : "user_id" ≠ "expires" := by decide
      have hdE : dget (dset obj "user_id" uid) "expires" = some (PyVal.int E) := by
        rw [dget_dset_ne _ _ _ hne]; exact hE
      refine ⟨dset obj "user_id" uid, hdE, pyTruthy_of_dget hdE, ?_⟩
      have h2 := congrArg Prod.snd hct
      dsimp only at h2
      rw [← h2, trustStep_strings]
      rfl

/-- C1 (amended): for every token created with a non-empty id and an
expiry `E` strictly in the future, the primary record is stored with
absolute backend expiry `creation + (E - creation)` (TTL = expires minus
creation time), `get_token` returns the stored data — whose `expires`
equals `E` — at any time strictly before `E`, and fails with
`TokenNotFound` from `E` on.  (The claim as stated, without the
non-empty-id proviso, is refuted by `C1_counterexample`.) -/
theorem C1_token_expiry :
    ∀ (cfg : Cfg) (now0 : Int) (st : St) (tid : String) (a : Nat) (obj : PyVal) (E : Int)
      (res : Except Err Nat) (st2 : St) (r : Nat),
      create_token cfg now0 st tid a = (res, st2) →
      heapGet st a = some obj →
      dget obj "expires" = some (PyVal.int E) →
      res = .ok r →
      tid ≠ "" →
      now0 < E →
      ∃ d, dget d "expires" = some (PyVal.int E) ∧
        st2.strings = (getKey "token" tid, dumps d, now0 + (E - now0)) ::
          st.strings.filter (fun kv => kv.1 ≠ getKey "token" tid) ∧
        (∀ now1, now1 < E → get_token st2 tid now1 = .ok d) ∧
        (∀ now1, E ≤ now1 → get_token st2 tid now1 = .error (.tokenNotFound tid)) := by
  intro cfg now0 st tid a obj E res st2 r hct ha hE hr htid hfut
  obtain ⟨d, hdE, hdT, hstr⟩ := create_token_run hct ha hE r hr
  have hexp : now0 + (E - now0) = E := by ring
  refine ⟨d, hdE, hstr, ?_, ?_⟩
  · intro now1 h1
    have hlive : liveGet st2.strings (getKey "token" tid) now1 = some (Pickled.val d) := by
      rw [hstr, liveGet_cons_self, hexp]
      exact if_pos h1
    simp [get_token, htid, rGet_val hlive, hdT]
  · intro now1 h1
    have hlive : liveGet st2.strings (getKey "token" tid) now1 = none := by
      rw [hstr, liveGet_cons_self, hexp]
      exact if_neg (by omega)
    simp [get_token, htid, rGet_none hlive]

/-- C1 counterexample: a token created with the EMPTY id and a future
expiry (10, at creation time 0) is stored successfully, yet
`get_token('')` fails with `TokenNotFound` already at time 5, before the
expiry passes — `get_token` rejects an empty id before looking at the
store, so the claim as stated fails for the empty id. -/
theorem C1_counterexample :
    dget objW "expires" = some (PyVal.int 10) ∧
    (create_token cfgW 0 stW "" 0).1 = .ok 1 ∧
    ((0:Int) < 10 ∧ (5:Int) < 10) ∧
    get_token (create_token cfgW 0 stW "" 0).2 "" 5 = .error (.tokenNotFound "") := by
  refine ⟨by decide, by decide, by decide, by decide⟩

/-- Witness for the amended C1 on the concrete creation of `t1`. -/
theorem C1_witness :
    ∃ d, dget d "expires" = some (PyVal.int 10) ∧
      stW1.strings = (getKey "token" "t1", dumps d, 0 + (10 - 0)) ::
        stW.strings.filter (fun kv => kv.1 ≠ getKey "token" "t1") ∧
      (∀ now1, now1 < 10 → get_token stW1 "t1" now1 = .ok d) ∧
      (∀ now1, (10:Int) ≤ now1 → get_token stW1 "t1" now1 = .error (.tokenNotFound "t1")) :=
  C1_token_expiry cfgW 0 stW "t1" 0 objW 10 (create_token cfgW 0 stW "t1" 0).1 stW1 1
    rfl (by decide) (by decide) (by decide) (by decide) (by decide)

theorem mem_zsetOf_rZadd_self (st : St) (k : String) (m : Pickled) (s : Int) :
    (m, s) ∈ zsetOf (rZadd st k m s) k := by
  unfold rZadd
  rw [zsetOf_setZset_self]
  exact List.mem_append_right _ (List.mem_singleton.mpr rfl)

theorem mem_zsetOf_rZadd (st : St) (k k2 : String) (m : Pickled) (s : Int)
    (h : (m, s) ∈ zsetOf st k2) :
    (m, s) ∈ zsetOf (rZadd st k m s) k2 := by
  by_cases hk : k2 = k
  · subst hk; exact mem_zsetOf_rZadd_self st k2 m s
  · unfold rZadd
    rw [zsetOf_setZset_ne _ _ _ hk]
    exact h

theorem create_token_trust_reduce {cfg : Cfg} {now : Int} {st : St} {tid : String}
    {a : Nat} {obj : PyVal} {E : Int}
    (ha : heapGet st a = some obj)
    (hE : dget obj "expires" = some (PyVal.int E))
    (huid : optTruthy (dget obj "user_id") = true) :
    create_token cfg now st tid a =
      trustStep cfg obj tid E st.next
        (rZadd (rSetex { st with heap := (st.next, obj) :: st.heap, next := st.next + 1 }
            (getKey "token" tid) (dumps obj) (E - now) now)
          (getKey "user" (pyStrOpt (dget obj "user_id"))) (dumps (.str tid)) E) := by
  unfold create_token
  simp only [ha]
  have hobj1 : heapObj { st with heap := (st.next, obj) :: st.heap, next := st.next + 1 }
      st.next = obj := by
    simp [heapObj, heapGet, lookup_cons_self]
  have hsd : setdefault { st with heap := (st.next, obj) :: st.heap, next := st.next + 1 }
      st.next "expires" (.int (default_expire_time cfg now))
      = ({ st with heap := (st.next, obj) :: st.heap, next := st.next + 1 }, PyVal.int E) := by
    unfold setdefault
    rw [hobj1, hE]
  have hstep : userIdStep { st with heap := (st.next, obj) :: st.heap, next := st.next + 1 }
      st.next = .ok { st with heap := (st.next, obj) :: st.heap, next := st.next + 1 } := by
    unfold userIdStep
    rw [hobj1, if_pos huid]
  simp only [hsd, hstep, hobj1]

/-- C8: when trust support is enabled, the data carries a truthy
`trust_id`, the payload fields needed to reach the version test are
present, and the token version is neither V2 nor V3, `create_token`
fails with the unsupported-token-version error — classified by the
spec's §7 taxonomy (`isUnexpectedError`) as `UnexpectedError`. -/
theorem C8_unknown_version :
    ∀ (cfg : Cfg) (now : Int) (st : St) (tid : String) (a : Nat) (obj td tv : PyVal)
      (E : Int),
      heapGet st a = some obj →
      dget obj "expires" = some (PyVal.int E) →
      optTruthy (dget obj "user_id") = true →
      cfg.trustEnabled = true →
      optTruthy (dget obj "trust_id") = true →
      dget obj "token_data" = some td →
      dget obj "token_version" = some tv →
      tv ≠ .str V2 →
      tv ≠ .str V3 →
      ∃ m, (create_token cfg now st tid a).1 = .error (.unsupportedTokenVersion m) ∧
        isUnexpectedError (.unsupportedTokenVersion m) = true := by
  intro cfg now st tid a obj td tv E ha hE huid htr htrid htd hver hv2 hv3
  rw [create_token_trust_reduce ha hE huid]
  have hdict : obj.isDict = true := isDict_of_dget hE
  have hcond : (cfg.trustEnabled && optTruthy (dget obj "trust_id")) = true := by
    rw [htr, htrid]; rfl
  have hps1 : pySub obj "token_data" = .ok td := by
    simp [pySub, hdict, htd]
  have hps2 : pySub obj "token_version" = .ok tv := by
    simp [pySub, hdict, hver]
  refine ⟨"Unknown token version " ++ pyStrOpt (dget obj "token_version"), ?_, rfl⟩
  unfold trustStep
  simp only [hcond, if_true, hps1, hps2, if_neg hv2, if_neg hv3]

/-- C7: a trust-enabled create whose data carries a truthy `trust_id`
and a known token version (V2 or V3, with the trustee extractable from
the corresponding nested payload) succeeds and registers an additional
index entry under the trustee's user key with the same token id and the
same expiry score as the owner's entry. -/
theorem C7_trustee_index :
    ∀ (cfg : Cfg) (now : Int) (st : St) (tid : String) (a : Nat)
      (obj td tv trustee : PyVal) (E : Int),
      heapGet st a = some obj →
      dget obj "expires" = some (PyVal.int E) →
      optTruthy (dget obj "user_id") = true →
      cfg.trustEnabled = true →
      optTruthy (dget obj "trust_id") = true →
      dget obj "token_data" = some td →
      dget obj "token_version" = some tv →
      ((tv = .str V2 ∧ (pySub td "access" >>= (fun a => pySub a "trust") >>=
          (fun t => pySub t "trustee_user_id")) = .ok trustee) ∨
       (tv = .str V3 ∧ (pySub td "OS-TRUST:trust" >>=
          (fun t => pySub t "trustee_user_id")) = .ok trustee)) →
      ∃ st2, create_token cfg now st tid a = (.ok st.next, st2) ∧
        (dumps (.str tid), E) ∈ zsetOf st2 (getKey "user" (pyStr trustee)) ∧
        (dumps (.str tid), E) ∈ zsetOf st2 (getKey "user" (pyStrOpt (dget obj "user_id"))) := by
  intro cfg now st tid a obj td tv trustee E ha hE huid htr htrid htd hver hv
  rw [create_token_trust_reduce ha hE huid]
  have hdict : obj.isDict = true := isDict_of_dget hE
  have hcond : (cfg.trustEnabled && optTruthy (dget obj "trust_id")) = true := by
    rw [htr, htrid]; rfl
  have hps1 : pySub obj "token_data" = .ok td := by
    simp [pySub, hdict, htd]
  have hps2 : pySub obj "token_version" = .ok tv := by
    simp [pySub, hdict, hver]
  set st5 := rZadd (rSetex { st with heap := (st.next, obj) :: st.heap, next := st.next + 1 } (getKey "token" tid) (dumps obj) (E - now) now) (getKey "user" (pyStrOpt (dget obj "user_id"))) (dumps (.str tid)) E with hst5
  have howner : (dumps (.str tid), E) ∈ zsetOf st5
      (getKey "user" (pyStrOpt (dget obj "user_id"))) := by
    rw [hst5]
    exact mem_zsetOf_rZadd_self _ _ _ _
  rcases hv with ⟨hveq, hchain⟩ | ⟨hveq, hchain⟩
  · subst hveq
    refine ⟨rZadd st5 (getKey "user" (pyStr trustee)) (dumps (.str tid)) E, ?_, ?_, ?_⟩
    · unfold trustStep
      simp only [hcond, if_true, hps1, hps2, if_pos rfl, hchain]
    · exact mem_zsetOf_rZadd_self _ _ _ _
    · exact mem_zsetOf_rZadd _ _ _ _ _ howner
  · subst hveq
    have hne : (PyVal.str V3) ≠ (PyVal.str V2) := by decide
    refine ⟨rZadd st5 (getKey "user" (pyStr trustee)) (dumps (.str tid)) E, ?_, ?_, ?_⟩
    · unfold trustStep
      simp only [hcond, if_true, hps1, hps2, if_neg hne, if_pos rfl, hchain]
    · exact mem_zsetOf_rZadd_self _ _ _ _
    · exact mem_zsetOf_rZadd _ _ _ _ _ howner

/-- Witness for C8 at the concrete unknown-version payload `objBV`. -/
theorem C8_witness :
    ∃ m, (create_token cfgTW 0 stBV "t1" 0).1 = .error (.unsupportedTokenVersion m) ∧
      isUnexpectedError (.unsupportedTokenVersion m) = true :=
  C8_unknown_version cfgTW 0 stBV "t1" 0 objBV .dnil (.str "weird") 10 (by decide)
    (by decide) (by decide) (by decide) (by decide) (by decide) (by decide) (by decide)
    (by decide)

/-- Witness for C7 at the concrete V2 trust payload `objTV`: the trustee
`tu` gets an index entry with the same id and score as the owner `u`. -/
theorem C7_witness :
    ∃ st2, create_token cfgTW 0 stTV "t1" 0 = (.ok stTV.next, st2) ∧
      (dumps (.str "t1"), (10:Int)) ∈ zsetOf st2 (getKey "user" (pyStr (.str "tu"))) ∧
      (dumps (.str "t1"), (10:Int)) ∈ zsetOf st2
        (getKey "user" (pyStrOpt (dget objTV "user_id"))) :=
  C7_trustee_index cfgTW 0 stTV "t1" 0 objTV
    (.dcons "access" (.dcons "trust" (.dcons "trustee_user_id" (.str "tu") .dnil) .dnil)
      .dnil)
    (.str "v2.0") (.str "tu") 10 (by decide) (by decide) (by decide) (by decide)
    (by decide) (by decide) (by decide) (Or.inl ⟨by decide, by decide⟩)

theorem filter_eq_after_filter_ne (l : List (Pickled × Int)) (m : Pickled) :
    (l.filter (fun ms => ms.1 ≠ m)).filter (fun ms => ms.1 = m) = [] := by
  induction l with
  | nil => rfl
  | cons x xs ih =>
    by_cases hx : x.1 = m
    · simp [List.filter, hx, ih]
    · simp [List.filter, hx, ih]

/-- C4: a successful `delete_token` leaves exactly one revocation entry
for the deleted token's data, scored by the token's original expiry `E`;
that entry appears in `list_revoked_tokens` at any later read strictly
before `E` and is absent (pruned) from `E` on. -/
theorem C4_revocation :
    ∀ (st : St) (tid : String) (nowDel E : Int) (data : PyVal),
      (∀ ms ∈ zsetOf st revocationList, ∃ w, ms.1 = Pickled.val w) →
      0 ≤ nowDel →
      get_token st tid nowDel = .ok data →
      pySub data "expires" = .ok (PyVal.int E) →
      nowDel < E →
      (delete_token nowDel st tid).1 = .ok () ∧
      (zsetOf (delete_token nowDel st tid).2 revocationList).filter
          (fun ms => ms.1 = dumps data) = [(dumps data, E)] ∧
      (∀ now2, ∃ res,
          (list_revoked_tokens now2 (delete_token nowDel st tid).2).1 = .ok res ∧
          (data ∈ res ↔ now2 < E)) := by
  intro st tid nowDel E data hwf h0 hget hexp hlt
  have hdel : delete_token nowDel st tid
      = (.ok (), rZadd (rDelete st (getKey "token" tid)) revocationList (dumps data) E) := by
    unfold delete_token
    simp only [hget, hexp]
  rw [hdel]
  have hz1 : zsetOf (rZadd (rDelete st (getKey "token" tid)) revocationList (dumps data) E)
      revocationList
      = (zsetOf st revocationList).filter (fun ms => ms.1 ≠ dumps data)
          ++ [(dumps data, E)] := by
    unfold rZadd
    rw [zsetOf_setZset_self, zsetOf_rDelete]
  refine ⟨rfl, ?_, ?_⟩
  · rw [hz1, List.filter_append, filter_eq_after_filter_ne]
    simp
  · intro now2
    set st1 := rZadd (rDelete st (getKey "token" tid)) revocationList (dumps data) E
      with hst1
    have hz2 : zsetOf (remove_expired st1 revocationList now2) revocationList
        = (zsetOf st1 revocationList).filter
            (fun ms => ¬ (0 ≤ ms.2 ∧ ms.2 ≤ now2)) := by
      unfold remove_expired
      exact zsetOf_setZset_self _ _ _
    have hall : ∀ ms ∈ zsetOf st1 revocationList, ∃ w, ms.1 = Pickled.val w := by
      rw [hst1, hz1]
      intro ms hms
      rcases List.mem_append.mp hms with hms | hms
      · exact hwf ms (List.mem_filter.mp hms).1
      · rw [List.mem_singleton.mp hms]
        exact ⟨data, rfl⟩
    have hsubval : ∀ p ∈ zrangeRaw (remove_expired st1 revocationList now2)
        revocationList 0 (-1), ∃ w, p = Pickled.val w := by
      intro p hp
      rw [zrangeRaw_full] at hp
      obtain ⟨ms, hms, hfst⟩ := List.mem_map.mp hp
      obtain ⟨w, hw⟩ := hall ms (by
        have := mem_sortByScore.mp hms
        rw [hz2] at this
        exact (List.mem_filter.mp this).1)
      exact ⟨w, by rw [← hfst, hw]⟩
    obtain ⟨res, hres⟩ := mapLoads_all_val hsubval
    refine ⟨res, hres, ?_⟩
    rw [mapLoads_mem hres data, zrangeRaw_full]
    constructor
    · intro hmem
      obtain ⟨ms, hms, hfst⟩ := List.mem_map.mp hmem
      have hms2 := mem_sortByScore.mp hms
      rw [hz2] at hms2
      obtain ⟨hbase, hcond⟩ := List.mem_filter.mp hms2
      rw [hst1, hz1] at hbase
      rcases List.mem_append.mp hbase with hb | hb
      · exfalso
        have := (List.mem_filter.mp hb).2
        rw [hfst] at this
        simp [dumps] at this
      · have hmsE : ms = (dumps data, E) := List.mem_singleton.mp hb
        rw [hmsE] at hcond
        simp at hcond
        omega
    · intro h2
      have hmem : (dumps data, E) ∈ zsetOf (remove_expired st1 revocationList now2)
          revocationList := by
        rw [hz2]
        refine List.mem_filter.mpr ⟨?_, ?_⟩
        · rw [hst1, hz1]
          exact List.mem_append_right _ (List.mem_singleton.mpr rfl)
        · simp
          omega
      exact List.mem_map.mpr ⟨(dumps data, E), mem_sortByScore.mpr hmem, rfl⟩

/-- Witness for C4: after deleting `t1` (expiry 10) at time 5, the
ledger holds exactly its entry scored 10, visible in
`list_revoked_tokens` at time 7 and pruned at time 10. -/
theorem C4_witness :
    (delete_token 5 stW1 "t1").1 = .ok () ∧
    (zsetOf (delete_token 5 stW1 "t1").2 revocationList).filter
        (fun ms => ms.1 = dumps objW) = [(dumps objW, 10)] ∧
    (∀ now2, ∃ res,
        (list_revoked_tokens now2 (delete_token 5 stW1 "t1").2).1 = .ok res ∧
        (objW ∈ res ↔ now2 < 10)) :=
  C4_revocation stW1 "t1" 5 10 objW
    (by
      intro ms hms
      rw [show zsetOf stW1 revocationList = [] from by decide] at hms
      cases hms)
    (by decide) (by decide) (by decide) (by decide)

theorem pyGet_ok_inv {d : PyVal} {k : String} {v : Option PyVal}
    (h : pyGet d k = .ok v) : v = dget d k := by
  unfold pyGet at h
  split at h
  · injection h with h; exact h.symm
  · cases h

theorem tenantKeep_ok_of_dict {td : PyVal} (hd : td.isDict = true) (t : Option String) :
    ∃ b, tenantKeep t td = .ok b := by
  unfold tenantKeep
  by_cases hf : strFilter t = true
  · rw [if_pos hf]
    rw [show pyGet td "tenant_id" = .ok (dget td "tenant_id") from by simp [pyGet, hd]]
    exact ⟨_, rfl⟩
  · rw [if_neg hf]
    exact ⟨true, rfl⟩

theorem trustKeep_ok_of_dict {td : PyVal} (hd : td.isDict = true) (tr : Option String) :
    ∃ b, trustKeep tr td = .ok b := by
  unfold trustKeep
  by_cases hf : strFilter tr = true
  · rw [if_pos hf]
    rw [show pyGet td "trust_id" = .ok (dget td "trust_id") from by simp [pyGet, hd]]
    exact ⟨_, rfl⟩
  · rw [if_neg hf]
    exact ⟨true, rfl⟩

theorem list_tokens_mem_pc {now : Int} {st : St} {uid : String} {t tr c : Option String}
    {res : List PyVal} {st2 : St} {v : PyVal}
    (h : list_tokens now st uid t tr c = (.ok res, st2)) (hv : v ∈ res) :
    processCandidate st now t tr c v = .ok true := by
  unfold list_tokens at h
  dsimp only at h
  cases hz : zrangeVals (remove_expired st (getKey "user" uid) now)
      (getKey "user" uid) 0 (-1) with
  | error e => simp only [hz] at h; simp [Prod.ext_iff] at h
  | ok tids =>
    simp only [hz] at h
    rw [Prod.mk.injEq] at h
    obtain ⟨hl, -⟩ := h
    have hpc := ((listLoop_ok_mem hl v).1 hv).2
    rw [processCandidate_congr (strings_remove_expired st (getKey "user" uid) now)] at hpc
    exact hpc

theorem list_tokens_excl {now : Int} {st : St} {uid : String} {t tr c : Option String}
    {res : List PyVal} {st2 : St} {v : PyVal}
    (h : list_tokens now st uid t tr c = (.ok res, st2))
    (hpc : processCandidate st now t tr c v = .ok false) : v ∉ res := by
  intro hv
  have h2 := list_tokens_mem_pc h hv
  rw [hpc] at h2
  simp at h2

theorem processCandidate_consumer_skip {st : St} {now : Int} {t tr : Option String}
    {c : String} {v td : PyVal}
    (hlive : liveGet st.strings (getKey "token" (pyStr v)) now = some (Pickled.val td))
    (htruthy : pyTruthy td = true) (hdict : td.isDict = true) (hc : c ≠ "")
    (hprobe : consumerProbe td c = .ok false ∨
      ∃ k, consumerProbe td c = .error (.keyError k)) :
    processCandidate st now t tr (some c) v = .ok false := by
  unfold processCandidate
  simp only [rGet_val hlive]
  simp only [htruthy, if_true]
  obtain ⟨b1, hb1⟩ := tenantKeep_ok_of_dict hdict t
  simp only [hb1]
  cases b1 with
  | false => rfl
  | true =>
    obtain ⟨b2, hb2⟩ := trustKeep_ok_of_dict hdict tr
    simp only [hb2]
    cases b2 with
    | false => rfl
    | true =>
      unfold consumerKeep
      rw [if_pos (show strFilter (some c) = true from by simp [strFilter, hc])]
      rcases hprobe with hp | ⟨k, hp⟩
      · simp only [hp]
      · simp only [hp]

/-- C9: the optional filters of `list_tokens` work by exact field match —
a candidate whose stored `tenant_id` (resp. `trust_id`) differs from a
supplied non-empty filter value is excluded from the result; and for a
supplied consumer id the nested OAuth lookup is tolerant of missing
structure: a candidate whose record lacks the nested structure (a
`KeyError` inside the guarded lookup), or whose nested consumer id
differs, is skipped (`processCandidate` yields `.ok false`, not an
error) and excluded. -/
theorem C9_filter_semantics :
    (∀ (now : Int) (st : St) (uid : String) (t tr c : Option String)
        (res : List PyVal) (st2 : St) (v td : PyVal) (tval : String),
        list_tokens now st uid t tr c = (.ok res, st2) →
        liveGet st.strings (getKey "token" (pyStr v)) now = some (Pickled.val td) →
        t = some tval → tval ≠ "" →
        dget td "tenant_id" ≠ some (.str tval) →
        v ∉ res) ∧
    (∀ (now : Int) (st : St) (uid : String) (t tr c : Option String)
        (res : List PyVal) (st2 : St) (v td : PyVal) (trval : String),
        list_tokens now st uid t tr c = (.ok res, st2) →
        liveGet st.strings (getKey "token" (pyStr v)) now = some (Pickled.val td) →
        tr = some trval → trval ≠ "" →
        dget td "trust_id" ≠ some (.str trval) →
        v ∉ res) ∧
    (∀ (now : Int) (st : St) (uid : String) (t tr : Option String) (c : String)
        (res : List PyVal) (st2 : St) (v td : PyVal) (k : String),
        list_tokens now st uid t tr (some c) = (.ok res, st2) →
        liveGet st.strings (getKey "token" (pyStr v)) now = some (Pickled.val td) →
        pyTruthy td = true → td.isDict = true → c ≠ "" →
        consumerProbe td c = .error (.keyError k) →
        processCandidate st now t tr (some c) v = .ok false ∧ v ∉ res) ∧
    (∀ (now : Int) (st : St) (uid : String) (t tr : Option String) (c : String)
        (res : List PyVal) (st2 : St) (v td oauth : PyVal) (cid : Option PyVal),
        list_tokens now st uid t tr (some c) = (.ok res, st2) →
        liveGet st.strings (getKey "token" (pyStr v)) now = some (Pickled.val td) →
        pyTruthy td = true → td.isDict = true → c ≠ "" →
        (pySub td "token_data" >>= (fun a => pySub a "token") >>=
          (fun b => pySub b "OS-OAUTH1")) = .ok oauth →
        pyGet oauth "consumer_id" = .ok cid →
        cid ≠ some (.str c) →
        processCandidate st now t tr (some c) v = .ok false ∧ v ∉ res) := by
  refine ⟨?_, ?_, ?_, ?_⟩
  · intro now st uid t tr c res st2 v td tval hlist hlive ht htval hne
    intro hv
    have hpc := list_tokens_mem_pc hlist hv
    obtain ⟨td2, hrg, htr2, htk, htk2, hck⟩ := processCandidate_true_inv hpc
    have htd2 : td2 = td := by
      have h2 := (rGet_val hlive).symm.trans hrg
      injection h2 with h2
      injection h2 with h2
      exact h2.symm
    subst htd2
    subst ht
    unfold tenantKeep at htk
    rw [if_pos (show strFilter (some tval) = true from by simp [strFilter, htval])] at htk
    cases hpg : pyGet td2 "tenant_id" with
    | error e => rw [hpg] at htk; cases htk
    | ok w =>
      rw [hpg] at htk
      injection htk with htk
      have hw := of_decide_eq_true htk
      rw [pyGet_ok_inv hpg] at hw
      simp at hw
      exact hne hw
  · intro now st uid t tr c res st2 v td trval hlist hlive htr htrval hne
    intro hv
    have hpc := list_tokens_mem_pc hlist hv
    obtain ⟨td2, hrg, htr2, htk, htk2, hck⟩ := processCandidate_true_inv hpc
    have htd2 : td2 = td := by
      have h2 := (rGet_val hlive).symm.trans hrg
      injection h2 with h2
      injection h2 with h2
      exact h2.symm
    subst htd2
    subst htr
    unfold trustKeep at htk2
    rw [if_pos (show strFilter (some trval) = true from by simp [strFilter, htrval])] at htk2
    cases hpg : pyGet td2 "trust_id" with
    | error e => rw [hpg] at htk2; cases htk2
    | ok w =>
      rw [hpg] at htk2
      injection htk2 with htk2
      have hw := of_decide_eq_true htk2
      rw [pyGet_ok_inv hpg] at hw
      simp at hw
      exact hne hw
  · intro now st uid t tr c res st2 v td k hlist hlive htruthy hdict hc hprobe
    have hpc := @processCandidate_consumer_skip st now t tr c v td hlive htruthy hdict hc
      (Or.inr ⟨k, hprobe⟩)
    exact ⟨hpc, list_tokens_excl hlist hpc⟩
  · intro now st uid t tr c res st2 v td oauth cid hlist hlive htruthy hdict hc hoauth
      hget hcid
    have hprobe : consumerProbe td c = .ok false := by
      unfold consumerProbe
      rw [hoauth]
      show (match pyGet oauth "consumer_id" with
        | .error e => Except.error e
        | .ok cid2 => Except.ok (cid2 = some (.str c) : Bool)) = Except.ok false
      rw [hget]
      simp [hcid]
    have hpc := @processCandidate_consumer_skip st now t tr c v td hlive htruthy hdict hc
      (Or.inl hprobe)
    exact ⟨hpc, list_tokens_excl hlist hpc⟩

/-- Witness for C9 on the concrete world `stF` (token `x` with tenant
`A`/trust `T` and no OAuth payload, token `y` with OAuth consumer `C`):
a tenant filter `B` and a trust filter `S` exclude `x`; a consumer
filter `C` skips `x` (missing nested structure) without error; a
consumer filter `D` skips `y` (consumer id differs) without error. -/
theorem C9_witness :
    (PyVal.str "x" ∉ ([] : List PyVal)) ∧
    (PyVal.str "x" ∉ ([] : List PyVal)) ∧
    (processCandidate stF 10 none none (some "C") (.str "x") = .ok false ∧
      PyVal.str "x" ∉ [PyVal.str "y"]) ∧
    (processCandidate stF 10 none none (some "D") (.str "y") = .ok false ∧
      PyVal.str "y" ∉ ([] : List PyVal)) :=
  ⟨C9_filter_semantics.1 10 stF "u" (some "B") none none []
      (list_tokens 10 stF "u" (some "B") none none).2 (.str "x") tdA "B"
      (by decide) (by decide) rfl (by decide) (by decide),
   C9_filter_semantics.2.1 10 stF "u" none (some "S") none []
      (list_tokens 10 stF "u" none (some "S") none).2 (.str "x") tdA "S"
      (by decide) (by decide) rfl (by decide) (by decide),
   C9_filter_semantics.2.2.1 10 stF "u" none none "C" [PyVal.str "y"]
      (list_tokens 10 stF "u" none none (some "C")).2 (.str "x") tdA "token_data"
      (by decide) (by decide) (by decide) (by decide) (by decide) (by decide),
   C9_filter_semantics.2.2.2 10 stF "u" none none "D" []
      (list_tokens 10 stF "u" none none (some "D")).2 (.str "y") tdO
      (.dcons "consumer_id" (.str "C") .dnil) (some (.str "C"))
      (by decide) (by decide) (by decide) (by decide) (by decide) (by decide)
      (by decide) (by decide)⟩

theorem mem_of_lookup {α β : Type} [BEq α] [LawfulBEq α] {l : List (α × β)} {a : α}
    {b : β} (h : List.lookup a l = some b) : (a, b) ∈ l := by
  induction l with
  | nil => cases h
  | cons kv rest ih =>
    obtain ⟨k, v⟩ := kv
    by_cases hk : a = k
    · subst hk
      rw [lookup_cons_self] at h
      injection h with h
      subst h
      exact List.mem_cons_self _ _
    · rw [lookup_cons_ne _ _ hk] at h
      exact List.mem_cons_of_mem _ (ih h)

theorem heapGet_heapSet_ne {st : St} {a b : Nat} (v : PyVal) (h : b ≠ a) :
    heapGet (heapSet st a v) b = heapGet st b := by
  unfold heapGet heapSet
  exact lookup_cons_ne _ _ h

theorem heapGet_base_ne {st : St} {obj : PyVal} {b : Nat} (h : b ≠ st.next) :
    heapGet { st with heap := (st.next, obj) :: st.heap, next := st.next + 1 } b
      = heapGet st b := by
  unfold heapGet
  exact lookup_cons_ne _ _ h

theorem heapGet_rSetex (st : St) (k : String) (p : Pickled) (t now : Int) (b : Nat) :
    heapGet (rSetex st k p t now) b = heapGet st b := rfl

theorem heapGet_rZadd (st : St) (k : String) (m : Pickled) (s : Int) (b : Nat) :
    heapGet (rZadd st k m s) b = heapGet st b := rfl

theorem heapGet_trustStep (cfg : Cfg) (obj : PyVal) (tid : String) (e : Int) (d : Nat)
    (st5 : St) (b : Nat) :
    heapGet (trustStep cfg obj tid e d st5).2 b = heapGet st5 b := by
  unfold heapGet
  rw [trustStep_heap]

theorem trustStep_fst_ok {cfg : Cfg} {obj : PyVal} {tid : String} {exp : Int}
    {data : Nat} {st5 : St} {r : Nat}
    (h : (trustStep cfg obj tid exp data st5).1 = .ok r) : r = data := by
  have h2 : trustStep cfg obj tid exp data st5
      = (.ok r, (trustStep cfg obj tid exp data st5).2) := by
    rw [← h]
  exact trustStep_ok_inv h2

theorem heapGet_setdefault_ne {st : St} {x b : Nat} (k : String) (v : PyVal)
    (h : b ≠ x) :
    heapGet (setdefault st x k v).1 b = heapGet st b := by
  unfold setdefault
  split
  · rfl
  · exact heapGet_heapSet_ne _ h

theorem userIdStep_heapGet_ne {st2 : St} {data : Nat} {st3 : St} {b : Nat}
    (h : userIdStep st2 data = .ok st3) (hb : b ≠ data) :
    heapGet st3 b = heapGet st2 b := by
  rcases userIdStep_obj h with h3 | ⟨uid, h3⟩
  · subst h3; rfl
  · subst h3; exact heapGet_heapSet_ne _ hb

theorem create_token_heapGet_ne (cfg : Cfg) (now : Int) (st : St) (tid : String)
    (a b : Nat) (hb : b ≠ st.next) :
    heapGet (create_token cfg now st tid a).2 b = heapGet st b := by
  unfold create_token
  cases hg : heapGet st a with
  | none => rfl
  | some obj =>
    dsimp only
    cases hstep : userIdStep
        (setdefault { st with heap := (st.next, obj) :: st.heap, next := st.next + 1 }
          st.next "expires" (.int (default_expire_time cfg now))).1 st.next with
    | error e =>
      simp [heapGet_setdefault_ne, heapGet_base_ne, hb]
    | ok st3 =>
      have h3 : heapGet st3 b = heapGet st b := by
        rw [userIdStep_heapGet_ne hstep hb]
        simp [heapGet_setdefault_ne, heapGet_base_ne, hb]
      dsimp only
      split
      · simp [heapGet_trustStep, heapGet_rZadd, heapGet_rSetex, h3]
      · simp [h3]

theorem create_token_ok_addr (cfg : Cfg) (now : Int) (st : St) (tid : String)
    (a : Nat) (r : Nat) (h : (create_token cfg now st tid a).1 = .ok r) :
    r = st.next := by
  unfold create_token at h
  cases hg : heapGet st a with
  | none => simp only [hg] at h; cases h
  | some obj =>
    simp only [hg] at h
    repeat' split at h
    all_goals first
      | (exact trustStep_fst_ok h)
      | (exfalso; simp at h)

/-- C10: `create_token` never mutates the caller's data dict: whatever
the input dict at address `a` holds, it holds the same value after the
call (success or raised exception alike) — the defaulted `expires` and
derived `user_id` are applied only to the internal deep copy, which is
the object stored and returned, and that returned address is never the
caller's. -/
theorem C10_caller_unchanged :
    ∀ (cfg : Cfg) (now : Int) (st : St) (tid : String) (a : Nat) (obj : PyVal),
      (∀ p ∈ st.heap, p.1 < st.next) →
      heapGet st a = some obj →
      heapGet (create_token cfg now st tid a).2 a = some obj ∧
      ∀ r, (create_token cfg now st tid a).1 = .ok r → r ≠ a := by
  intro cfg now st tid a obj hwf ha
  have hmem : (a, obj) ∈ st.heap := mem_of_lookup ha
  have hlt : a < st.next := hwf (a, obj) hmem
  have hne : a ≠ st.next := by omega
  constructor
  · rw [create_token_heapGet_ne cfg now st tid a a hne]
    exact ha
  · intro r hr
    rw [create_token_ok_addr cfg now st tid a r hr]
    omega

/-- Witness for C10: creating `t1` from the dict at address 0 leaves
that dict unchanged and returns a different (fresh) address. -/
theorem C10_witness :
    heapGet (create_token cfgW 0 stW "t1" 0).2 0 = some objW ∧
    ∀ r, (create_token cfgW 0 stW "t1" 0).1 = .ok r → r ≠ 0 :=
  C10_caller_unchanged cfgW 0 stW "t1" 0 objW (by decide) (by decide)
